import Mathlib

/-!
Verification development for the dailymotion/oplog repository.

The Go sources are shallowly embedded: each definition below mirrors one
function (or one tight cluster of declarations) of the repository. Machine
integers are modelled as `Int`/`Nat`; `time.Time` values are modelled as
`Int` nanoseconds since the Unix epoch (Go compares times with
`Before`/`After`, i.e. strict `<`/`>` on that scale); fallible Go functions
returning `(T, error)` are modelled as `Option T`.
-/

set_option autoImplicit false

namespace Oplog

/-! ### Hex and decimal scanning

`hexVal` mirrors Go `encoding/hex.fromHexChar` (used by
`bson.IsObjectIdHex` via `hex.DecodeString`): digits, lowercase `a`-`f`
and uppercase `A`-`F` are all accepted. -/

def hexVal (c : Char) : Option Nat :=
  if 48 ≤ c.toNat ∧ c.toNat ≤ 57 then some (c.toNat - 48)
  else if 97 ≤ c.toNat ∧ c.toNat ≤ 102 then some (c.toNat - 87)
  else if 65 ≤ c.toNat ∧ c.toNat ≤ 70 then some (c.toNat - 55)
  else none

/-- Big-endian value of a hex digit string, `none` on any non-hex char. -/
def hexNat : List Char → Nat → Option Nat
  | [], acc => some acc
  | c :: cs, acc =>
    match hexVal c with
    | some d => hexNat cs (acc * 16 + d)
    | none => none

def decDigit (c : Char) : Option Nat :=
  if 48 ≤ c.toNat ∧ c.toNat ≤ 57 then some (c.toNat - 48) else none

def decVal : List Char → Nat → Option Nat
  | [], acc => some acc
  | c :: cs, acc =>
    match decDigit c with
    | some d => decVal cs (acc * 10 + d)
    | none => none

/-- Go `strconv.ParseInt(s, 10, 64)`: optional sign, then one or more
decimal digits, result must fit in a signed 64-bit integer. -/
def goParseInt64 (s : String) : Option Int :=
  match s.data with
  | [] => none
  | '+' :: rest =>
    if rest = [] then none
    else
      match decVal rest 0 with
      | some n => if n ≤ 9223372036854775807 then some (Int.ofNat n) else none
      | none => none
  | '-' :: rest =>
    if rest = [] then none
    else
      match decVal rest 0 with
      | some n => if n ≤ 9223372036854775808 then some (-(Int.ofNat n)) else none
      | none => none
  | _ =>
    match decVal s.data 0 with
    | some n => if n ≤ 9223372036854775807 then some (Int.ofNat n) else none
    | none => none

/-! ### ObjectId (mgo/bson)

A Mongo ObjectId is 12 bytes; we model it by its 96-bit big-endian value.
The byte-wise ordering Mongo uses for `$gt` on `_id` coincides with the
numeric order of that value. `bson.ObjectId.Time()` reads the first 4
bytes as a big-endian unix-seconds timestamp. -/

structure ObjectId where
  val : Nat
deriving DecidableEq

/-- The embedded unix-seconds timestamp: the top 4 of the 12 bytes. -/
def ObjectId.timeSec (o : ObjectId) : Nat := o.val / 18446744073709551616

/-- `bson.ObjectId.Time()` as nanoseconds (`time.Unix(secs, 0)`). -/
def ObjectId.time (o : ObjectId) : Int := Int.ofNat o.timeSec * 1000000000

/-- `bson.IsObjectIdHex`: length 24 and decodable as hex (either case). -/
def isObjectIdHex (s : String) : Bool :=
  s.length == 24 && (hexNat s.data 0).isSome

/-! ### The two last-id spaces (lastid.go)

`LastID` merges the Go `OperationLastID` / `ReplicationLastID`
implementations of the `LastID` interface into one sum type. The
`ReplicationLastID` carries its millisecond value and the
`fallbackMode` flag. -/

inductive LastID
  | op (oid : ObjectId)
  | repl (ms : Int) (fallbackMode : Bool)
deriving DecidableEq

/-- `parseTimestampID`: at most 13 characters and parseable as an int64. -/
def parseTimestampID (id : String) : Option Int :=
  if id.length ≤ 13 then goParseInt64 id else none

/-- `parseObjectID`: non-empty and a valid ObjectId hex representation. -/
def parseObjectID (id : String) : Option ObjectId :=
  if id ≠ "" ∧ isObjectIdHex id = true then (hexNat id.data 0).map ObjectId.mk
  else none

/-- `NewLastID`: timestamps win, then ObjectIds, otherwise an error. -/
def NewLastID (id : String) : Option LastID :=
  match parseTimestampID id with
  | some ts => some (LastID.repl ts false)
  | none =>
    match parseObjectID id with
    | some oid => some (LastID.op oid)
    | none => none

/-- `Time()` of either id kind, in nanoseconds:
`ReplicationLastID.Time` is `time.Unix(0, ms*1000000)`. -/
def LastID.time : LastID → Int
  | LastID.op o => o.time
  | LastID.repl ms _ => ms * 1000000

/-- `OperationLastID.Fallback`: replication id at the ObjectId's embedded
time in milliseconds, with `fallbackMode` set. Go divides with truncation
toward zero, hence `Int.tdiv`. -/
def OperationLastID.Fallback (o : ObjectId) : LastID :=
  LastID.repl (Int.tdiv o.time 1000000) true

/-! ### Data model (operation.go)

`OperationData.ts` is the source-supplied mutation timestamp
(`data.timestamp`); `ObjectState.ts` is the server wall-clock time of the
last apply. The read-time `Ref` field and `genRef` are not modelled (the
claims run with an empty `ObjectURL`, where `genRef` is the identity on
the fields we track). -/

structure OperationData where
  ts : Int
  parents : List String
  type : String
  id : String
deriving DecidableEq

structure Operation where
  id : ObjectId
  event : String
  data : OperationData
deriving DecidableEq

structure ObjectState where
  id : String
  event : String
  ts : Int
  data : OperationData
deriving DecidableEq

/-- `OperationData.GetId`: the states key, `type ++ "/" ++ id`. -/
def GetId (d : OperationData) : String := d.type ++ "/" ++ d.id

/-! ### Filters (filter.go)

`Filter.apply` adds `data.t`/`data.p` clauses to the Mongo query (a direct
value for one element, `$in` for several). On the array field `data.p`
Mongo matches if any array element matches, so both shapes reduce to the
predicate below. -/

structure Filter where
  types : List String
  parents : List String
deriving DecidableEq

def Filter.matchData (f : Filter) (d : OperationData) : Bool :=
  (f.types.isEmpty || f.types.contains d.type) &&
  (f.parents.isEmpty || d.parents.any (fun p => f.parents.contains p))

/-! ### The store (oplog.go)

`Store.ops` is the capped `oplog_ops` collection in natural (insertion)
order; `Store.states` is the `oplog_states` collection. -/

structure Store where
  ops : List Operation
  states : List ObjectState
deriving DecidableEq

/-- `OpLog.LastId`: `Find(nil).Sort("-$natural").One`, i.e. the most
recently inserted operation, `none` when the log is empty. -/
def Store.lastID (s : Store) : Option ObjectId :=
  s.ops.getLast?.map Operation.id

/-- `OpLog.HasId`: membership in the capped collection for operation ids;
replication ids are always found, they are timestamps. -/
def HasID (s : Store) : LastID → Bool
  | LastID.op o => s.ops.any (fun op => decide (op.id = o))
  | LastID.repl _ _ => true

/-! ### Append (oplog.go `OpLog.Append`)

The op is inserted into `oplog_ops`; then the states row keyed by
`data.GetId()` is upserted with the event collapsed (`update` stores as
`insert`), the server time `now`, and the op's data. Mongo's `Upsert` on
the unique `_id` replaces the (single) matching document or inserts. -/

def stateEvent (ev : String) : String := if ev = "update" then "insert" else ev

def upsertState : List ObjectState → ObjectState → List ObjectState
  | [], row => [row]
  | r :: rest, row =>
    if r.id = row.id then row :: rest else r :: upsertState rest row

def Append (st : Store) (op : Operation) (now : Int) : Store :=
  { ops := st.ops ++ [op]
  , states := upsertState st.states
      (ObjectState.mk (GetId op.data) (stateEvent op.event) now op.data) }

/-! ### Diff (oplog.go `OpLog.Diff`)

Go maps keyed by the states `_id` are modelled as association lists with
pairwise distinct keys; `delete(m, k)` removes the (single) entry and
`m[k] = v` replaces it or appends. `dumpTime` starts at `time.Unix(0, 0)`
and takes the strictly larger timestamp, i.e. the max with 0; it does not
depend on Go's unspecified map iteration order. -/

def lookupData : List (String × OperationData) → String → Option OperationData
  | [], _ => none
  | kv :: rest, k => if kv.1 = k then some kv.2 else lookupData rest k

def eraseKey : List (String × OperationData) → String → List (String × OperationData)
  | [], _ => []
  | kv :: rest, k => if kv.1 = k then rest else kv :: eraseKey rest k

def setKey : List (String × OperationData) → String → OperationData → List (String × OperationData)
  | [], k, v => [(k, v)]
  | kv :: rest, k, v => if kv.1 = k then (k, v) :: rest else kv :: setKey rest k v

structure DiffMaps where
  createMap : List (String × OperationData)
  updateMap : List (String × OperationData)
  deleteMap : List (String × OperationData)
deriving DecidableEq

def dumpTimeOf (cm : List (String × OperationData)) : Int :=
  cm.foldl (fun acc kv => if acc < kv.2.ts then kv.2.ts else acc) 0

/-- One iteration of the `iter.Next(&obs)` loop body of `Diff`. -/
def diffStep (dumpTime : Int) (m : DiffMaps) (obs : ObjectState) : DiffMaps :=
  if obs.event = "deleted" then
    match lookupData m.createMap obs.id with
    | some obd =>
      if obd.ts < obs.data.ts then
        { m with createMap := eraseKey m.createMap obs.id }
      else m
    | none => m
  else
    match lookupData m.createMap obs.id with
    | some obd =>
      if obs.data.ts < obd.ts then
        { m with createMap := eraseKey m.createMap obs.id,
                 updateMap := setKey m.updateMap obs.id obd }
      else { m with createMap := eraseKey m.createMap obs.id }
    | none =>
      if obs.data.ts < dumpTime then
        { m with deleteMap := setKey m.deleteMap obs.id obs.data,
                 createMap := eraseKey m.createMap obs.id }
      else m

/-- `OpLog.Diff` over a snapshot of the states collection: scan every row,
threading the three delta maps. -/
def Diff (states : List ObjectState) (cm um dm : List (String × OperationData)) : DiffMaps :=
  states.foldl (diffStep (dumpTimeOf cm)) (DiffMaps.mk cm um dm)

/-! ### In-flight events (consumer, ife.go)

`InFlightEvents.ids` with `Push`/`Pull`. `Pull` returns the list after
removing the first occurrence, the `found` flag, and the `first` flag
(set only when the removed entry was at index 0). -/

def pushIFE (ids : List String) (i : String) : List String :=
  if ids.contains i then ids else ids ++ [i]

def pullIFE : List String → String → List String × Bool × Bool
  | [], _ => ([], false, false)
  | e :: rest, i =>
    if e = i then (rest, true, true)
    else
      match pullIFE rest i with
      | (rest2, found, _) => (e :: rest2, found, false)

/-! ### Consumer ack loop (consumer.go `Consumer.Process`)

The ack branch pulls the acked id from the IFE; only when it was found
and was the head does `SetLastId` run. The `reset` mutex coordination is
orthogonal to the tracked state and is not modelled. -/

structure ConsumerState where
  ids : List String
  lastId : String
deriving DecidableEq

def pushStep (s : ConsumerState) (i : String) : ConsumerState :=
  { s with ids := pushIFE s.ids i }

def ackStep (s : ConsumerState) (i : String) : ConsumerState :=
  match pullIFE s.ids i with
  | (ids2, found, first) =>
    { ids := ids2, lastId := if found && first then i else s.lastId }

/-! ### Consumer connect (consumer.go `Consumer.connect`)

The outcome of one connection attempt as a function of the last id the
consumer holds, the response status, and the `Last-Event-ID` response
header (`""` when absent, as Go's `Header.Get` returns). The resume
check runs before the status checks, in source order. -/

inductive ConnectResult
  | ok
  | resumeFailed
  | accessDenied
  | httpError (status : Nat)
deriving DecidableEq

def connectCheck (lastId : String) (status : Nat) (respLastEventID : String) : ConnectResult :=
  if lastId ≠ "" ∧ respLastEventID ≠ lastId then ConnectResult.resumeFailed
  else if status = 403 ∨ status = 401 then ConnectResult.accessDenied
  else if status ≠ 200 then ConnectResult.httpError status
  else ConnectResult.ok

/-! ### Tail (oplog.go `OpLog.Tail`)

`Tail` is an event-emitting loop; we model the sequence of events it
emits from a store snapshot, absent store errors and cancellation, up to
the end of the first pass over the live log. Replication paginates, so
the page loop carries fuel (the real loop can even re-fetch the same
page forever when a full page shares one millisecond). -/

inductive TailOutput
  | synth (id : String) (event : String)
  | oper (op : Operation)
  | stat (row : ObjectState)
deriving DecidableEq

/-- Ascending insertion by the states `ts` field (`Sort("ts")`). -/
def insertByTs (r : ObjectState) : List ObjectState → List ObjectState
  | [] => [r]
  | x :: xs => if r.ts ≤ x.ts then r :: x :: xs else x :: insertByTs r xs

def sortStates : List ObjectState → List ObjectState
  | [] => []
  | x :: xs => insertByTs x (sortStates xs)

/-- The `ts` clause of the replication query. `$gte` is present iff the
replication id was positive (or after a page bump), `$lte` iff the
capped log had a last operation. When both are absent the query is
`ts: (empty document)`, which matches no timestamp. -/
def replTsMatch (gte lte : Option Int) (ts : Int) : Bool :=
  match gte, lte with
  | none, none => false
  | some g, none => decide (g ≤ ts)
  | none, some l => decide (ts ≤ l)
  | some g, some l => decide (g ≤ ts) && decide (ts ≤ l)

/-- The full replication-mode query on `oplog_states`: filter clauses,
the `ts` window, and `event = "insert"` unless in fallback mode. -/
def replQueryMatch (f : Filter) (gte lte : Option Int) (fbMode : Bool) (row : ObjectState) : Bool :=
  f.matchData row.data && replTsMatch gte lte row.ts &&
    (fbMode || decide (row.event = "insert"))

/-- One replication page: `Find(query).Sort("ts").Limit(ps)`. -/
def replPage (ps : Nat) (states : List ObjectState) (f : Filter)
    (gte lte : Option Int) (fbMode : Bool) : List ObjectState :=
  (List.filter (replQueryMatch f gte lte fbMode) (sortStates states)).take ps

/-- The replication page loop: fetch a sorted page of at most `ps` rows,
emit it, and while pages come back full (and some row was emitted) bump
`$gte` to the last emitted row's event id time (its `ts` truncated to
milliseconds by `ReplicationLastID`). -/
def replLoop (fuel ps : Nat) (states : List ObjectState) (f : Filter)
    (gte lte : Option Int) (fbMode : Bool) (lastEv : Option ObjectState) : List ObjectState :=
  match fuel with
  | 0 => []
  | Nat.succ fuel2 =>
    match (replPage ps states f gte lte fbMode).getLast? with
    | some r =>
      if (replPage ps states f gte lte fbMode).length = ps then
        replPage ps states f gte lte fbMode ++ replLoop fuel2 ps states f
          (some (Int.tdiv r.ts 1000000 * 1000000)) lte fbMode (some r)
      else replPage ps states f gte lte fbMode
    | none =>
      match lastEv with
      | some r =>
        if (replPage ps states f gte lte fbMode).length = ps then
          replPage ps states f gte lte fbMode ++ replLoop fuel2 ps states f
            (some (Int.tdiv r.ts 1000000 * 1000000)) lte fbMode (some r)
        else replPage ps states f gte lte fbMode
      | none => replPage ps states f gte lte fbMode

/-- The live-mode emission: ops in natural order, filtered, with
`_id $gt after` when a resume id is given. -/
def liveEmit (st : Store) (after : Option ObjectId) (f : Filter) : List Operation :=
  st.ops.filter (fun op =>
    f.matchData op.data &&
      match after with
      | some a => decide (a.val < op.id.val)
      | none => true)

/-- The synthetic `reset` emission at the top of `Tail`: only when a last
id is given and it is a replication id with value 0. -/
def tailResetEvents (lastId : Option LastID) : List TailOutput :=
  match lastId with
  | some (LastID.repl ms _) =>
    if ms = 0 then [TailOutput.synth "1" "reset"] else []
  | _ => []

/-- The id carried by the synthetic `live` event: the last replicated
row's event id (`ReplicationLastId.String()`, decimal milliseconds), or
`""` when replication emitted nothing. -/
def replLastEvString (rows : List ObjectState) : String :=
  match rows.getLast? with
  | some r => toString (Int.tdiv r.ts 1000000)
  | none => ""

/-- The events `Tail` emits: the reset prelude, then for an operation id
one live pass after it; for a replication id the replication pages
(window frozen at `Store.lastID`'s time), the synthetic `live` marker,
and the live pass after the captured fallback id. A `none` last id (or a
`none` fallback id after replication) makes the source `panic`, emitting
nothing further. -/
def tailReplPhase (fuel ps : Nat) (st : Store) (ms : Int) (fbMode : Bool)
    (f : Filter) : List ObjectState :=
  replLoop fuel ps st.states f (if 0 < ms then some (ms * 1000000) else none)
    (st.lastID.map ObjectId.time) fbMode none

def tailEmit (fuel ps : Nat) (st : Store) (lastId : Option LastID) (f : Filter) : List TailOutput :=
  tailResetEvents lastId ++
    match lastId with
    | none => []
    | some (LastID.op oid) => (liveEmit st (some oid) f).map TailOutput.oper
    | some (LastID.repl ms fbMode) =>
      (tailReplPhase fuel ps st ms fbMode f).map TailOutput.stat ++
        [TailOutput.synth (replLastEvString (tailReplPhase fuel ps st ms fbMode f)) "live"] ++
        match st.lastID with
        | some fbOid => (liveEmit st (some fbOid) f).map TailOutput.oper
        | none => []

/-- The mode `Tail` enters first (after the reset prelude): live for an
operation id, replication for a replication id; a `nil` interface hits
the source's `panic("Invalid last id type")`. -/
inductive TailMode
  | live
  | replicate
  | crash
deriving DecidableEq

def startMode : Option LastID → TailMode
  | some (LastID.op _) => TailMode.live
  | some (LastID.repl _ _) => TailMode.replicate
  | none => TailMode.crash

/-! ### SSE endpoint (sse.go `SSEDaemon.GetOps`)

Only the `Last-Event-ID` handling is modelled; the `Accept` and password
checks preceding it are assumed to have passed and store reads are
error-free. Note the response header is set unconditionally once a
non-empty `Last-Event-ID` was parsed and checked ("Backward compat"
comment in the source), found or not. The fallback type assertion
`lastID.(*OperationLastID)` is safe because replication ids are always
found; the impossible arm is mapped to the id unchanged. -/

structure GetOpsResult where
  status : Nat
  echoLastEventID : Option String
  tailLastID : Option LastID
deriving DecidableEq

def GetOps (st : Store) (lastEventIDHeader : String) : GetOpsResult :=
  if lastEventIDHeader = "" then
    { status := 200, echoLastEventID := none
    , tailLastID := st.lastID.map LastID.op }
  else
    match NewLastID lastEventIDHeader with
    | none => { status := 400, echoLastEventID := none, tailLastID := none }
    | some lid =>
      { status := 200, echoLastEventID := some lastEventIDHeader
      , tailLastID := some (if HasID st lid then lid
          else
            match lid with
            | LastID.op o => OperationLastID.Fallback o
            | other => other) }

/-! ### Spec-side definition for claim C7

The spec classifies the operation-id arm as "a valid 24-character
lowercase hex token"; this definition follows the spec's words, to be
compared with `isObjectIdHex` above (which came from the source). -/

def specLowercaseHex24 (s : String) : Bool :=
  s.length == 24 &&
    s.data.all (fun c =>
      decide ((48 ≤ c.toNat ∧ c.toNat ≤ 57) ∨ (97 ≤ c.toNat ∧ c.toNat ≤ 102)))

/-! ## Theorems -/

/-- Pulling an id that is not the head leaves `lastId` unchanged; a change
can only set `lastId` to the pulled id, and only when it was the head. -/
lemma ackStep_lastId_change (s : ConsumerState) (i : String)
    (h : (ackStep s i).lastId ≠ s.lastId) :
    s.ids.head? = some i ∧ (ackStep s i).lastId = i := by
  obtain ⟨ids, l0⟩ := s
  cases ids with
  | nil => simp [ackStep, pullIFE] at h
  | cons e rest =>
    by_cases he : e = i
    · subst he
      constructor
      · rfl
      · simp [ackStep, pullIFE]
    · exfalso
      apply h
      simp only [ackStep, pullIFE, if_neg he]
      cases hp : pullIFE rest i with
      | mk rest2 fp =>
        simp [hp]

/-- C8. In-flight head advance: after `Push(a); Push(b); Pull(b)` the
consumer's `lastId` is unchanged; a subsequent `Pull(a)` advances it to
`a`; and in general an ack can move `lastId` only to the id at the head
of the in-flight list, so it never advances past an un-acked older
event. -/
theorem claim_C8 (a b l0 : String) (hab : a ≠ b) :
    (ackStep (pushStep (pushStep (ConsumerState.mk [] l0) a) b) b).lastId = l0 ∧
    (ackStep (ackStep (pushStep (pushStep (ConsumerState.mk [] l0) a) b) b) a).lastId = a ∧
    (∀ (s : ConsumerState) (i : String), (ackStep s i).lastId ≠ s.lastId →
      s.ids.head? = some i ∧ (ackStep s i).lastId = i) := by
  have hba : ¬ b = a := fun h => hab h.symm
  refine ⟨?_, ?_, fun s i h => ackStep_lastId_change s i h⟩
  · simp [pushStep, pushIFE, ackStep, pullIFE, hba, hab]
  · simp [pushStep, pushIFE, ackStep, pullIFE, hba, hab]

/-- Witness for C8 at `a := "x"`, `b := "y"`, `l0 := "0"`. -/
theorem claim_C8_witness :
    (ackStep (pushStep (pushStep (ConsumerState.mk [] "0") "x") "y") "y").lastId = "0" ∧
    (ackStep (ackStep (pushStep (pushStep (ConsumerState.mk [] "0") "x") "y") "y") "x").lastId = "x" := by
  have h := claim_C8 "x" "y" "0" (by decide)
  exact ⟨h.1, h.2.1⟩

/-- C9 as stated is false: the resume check precedes the status check, so
a 401 response that does not echo a sent `Last-Event-ID` yields
`resumeFailed`, not `accessDenied`. -/
theorem claim_C9_counterexample :
    connectCheck "0" 401 "" = ConnectResult.resumeFailed ∧
    ConnectResult.resumeFailed ≠ ConnectResult.accessDenied := by
  constructor
  · rfl
  · decide

/-- C9 (amended). When no `Last-Event-ID` was sent, or the response echoes
the sent one, a 401 or 403 status yields `accessDenied` and any other
non-200 status yields the retryable `httpError`; but when a sent
`Last-Event-ID` is not echoed, the result is `resumeFailed` regardless of
the status. -/
theorem claim_C9 (lastId : String) (status : Nat) (resp : String) :
    ((lastId = "" ∨ resp = lastId) → (status = 401 ∨ status = 403) →
      connectCheck lastId status resp = ConnectResult.accessDenied) ∧
    ((lastId = "" ∨ resp = lastId) → ¬(status = 401 ∨ status = 403) → status ≠ 200 →
      connectCheck lastId status resp = ConnectResult.httpError status) ∧
    (lastId ≠ "" → resp ≠ lastId →
      connectCheck lastId status resp = ConnectResult.resumeFailed) := by
  refine ⟨fun hecho hst => ?_, fun hecho hst h200 => ?_, fun hne hnr => ?_⟩
  · have hres : ¬(lastId ≠ "" ∧ resp ≠ lastId) := by
      rcases hecho with h | h <;> simp [h]
    rw [connectCheck, if_neg hres, if_pos (by tauto)]
  · have hres : ¬(lastId ≠ "" ∧ resp ≠ lastId) := by
      rcases hecho with h | h <;> simp [h]
    rw [connectCheck, if_neg hres, if_neg (by tauto), if_pos h200]
  · rw [connectCheck, if_pos ⟨hne, hnr⟩]

/-- Witness for C9 at `lastId := ""`, `status := 403`, `resp := ""`. -/
theorem claim_C9_witness :
    connectCheck "" 403 "" = ConnectResult.accessDenied :=
  (claim_C9 "" 403 "").1 (Or.inl rfl) (Or.inr rfl)

/-- C10. `Push` of an id already in flight is the identity, `Push`
preserves distinctness of the in-flight ids, and one `Pull` removes at
most one entry. -/
theorem claim_C10 (ids : List String) (i : String) :
    (ids.contains i = true → pushIFE ids i = ids) ∧
    (ids.Nodup → (pushIFE ids i).Nodup) ∧
    (pullIFE ids i).1.length ≤ ids.length ∧
    ids.length ≤ (pullIFE ids i).1.length + 1 := by
  refine ⟨fun hc => ?_, fun hnd => ?_, ?_⟩
  · rw [pushIFE, if_pos hc]
  · by_cases hc : ids.contains i = true
    · rw [pushIFE, if_pos hc]; exact hnd
    · rw [pushIFE, if_neg hc]
      have hni : i ∉ ids := by
        intro hmem
        exact hc (List.elem_iff.mpr hmem)
      rw [← List.concat_eq_append]
      exact List.Nodup.concat hni hnd
  · induction ids with
    | nil => simp [pullIFE]
    | cons e rest ih =>
      by_cases he : e = i
      · simp [pullIFE, he, Nat.le_succ]
      · simp only [pullIFE, if_neg he]
        cases hp : pullIFE rest i with
        | mk rest2 fp =>
          rw [hp] at ih
          simpa using ih

/-- Witness for C10 at `ids := ["x", "y"]`, `i := "x"`. -/
theorem claim_C10_witness :
    pushIFE ["x", "y"] "x" = ["x", "y"] ∧ (pushIFE ["x", "y"] "x").Nodup := by
  have h := claim_C10 ["x", "y"] "x"
  exact ⟨h.1 (by decide), h.2.1 (by decide)⟩

/-- C7 as stated is false: classification does not require lowercase hex.
`bson.IsObjectIdHex` decodes with Go's `encoding/hex`, which accepts
uppercase digits, so this 24-character uppercase token is accepted as an
operation-ID where the claim requires an error. -/
theorem claim_C7_counterexample :
    specLowercaseHex24 "507F1F77BCF86CD799439011" = false ∧
    ¬("507F1F77BCF86CD799439011".length ≤ 13 ∧
        (goParseInt64 "507F1F77BCF86CD799439011").isSome = true) ∧
    NewLastID "507F1F77BCF86CD799439011" ≠ none := by
  refine ⟨by decide, by decide, by decide⟩

/-- C7 (amended). For every string `s`: when `s` has at most 13 characters
and parses as an integer, `NewLastID` returns a replication-ID carrying
that value; otherwise, when `s` is a valid 24-character hex token (either
case, per `hex.DecodeString`), it returns an operation-ID; otherwise
(including the empty string) it returns an error. -/
theorem claim_C7 (s : String) :
    ((s.length ≤ 13 ∧ (goParseInt64 s).isSome = true) →
      ∃ ms, goParseInt64 s = some ms ∧ NewLastID s = some (LastID.repl ms false)) ∧
    (¬(s.length ≤ 13 ∧ (goParseInt64 s).isSome = true) → isObjectIdHex s = true →
      ∃ o, NewLastID s = some (LastID.op o)) ∧
    (¬(s.length ≤ 13 ∧ (goParseInt64 s).isSome = true) → isObjectIdHex s = false →
      NewLastID s = none) := by
  have hts : ¬(s.length ≤ 13 ∧ (goParseInt64 s).isSome = true) →
      parseTimestampID s = none := by
    intro hnot
    rw [parseTimestampID]
    split
    · next hlen =>
      cases hgo : goParseInt64 s with
      | none => rfl
      | some v => exact absurd ⟨hlen, by rw [hgo]; rfl⟩ hnot
    · rfl
  refine ⟨?_, ?_, ?_⟩
  · rintro ⟨hlen, hsome⟩
    obtain ⟨ms, hms⟩ := Option.isSome_iff_exists.mp hsome
    exact ⟨ms, hms, by rw [NewLastID, parseTimestampID, if_pos hlen, hms]⟩
  · intro hnot hhex
    have hne : s ≠ "" := by
      intro h
      subst h
      exact absurd hhex (by decide)
    have hsome2 : (hexNat s.data 0).isSome = true := by
      have h2 := hhex
      rw [isObjectIdHex, Bool.and_eq_true] at h2
      exact h2.2
    obtain ⟨n, hn⟩ := Option.isSome_iff_exists.mp hsome2
    refine ⟨ObjectId.mk n, ?_⟩
    rw [NewLastID, hts hnot, parseObjectID, if_pos ⟨hne, hhex⟩, hn]
    rfl
  · intro hnot hhex
    rw [NewLastID, hts hnot, parseObjectID, if_neg]
    rintro ⟨-, h2⟩
    rw [hhex] at h2
    exact Bool.false_ne_true h2

/-- Witness for C7: a 13-digit integer classifies as a replication-ID and
a lowercase 24-hex token as an operation-ID. -/
theorem claim_C7_witness :
    (∃ ms, goParseInt64 "1350442871000" = some ms ∧
      NewLastID "1350442871000" = some (LastID.repl ms false)) ∧
    (∃ o, NewLastID "507f1f77bcf86cd799439011" = some (LastID.op o)) :=
  ⟨(claim_C7 "1350442871000").1 ⟨by decide, by decide⟩,
   (claim_C7 "507f1f77bcf86cd799439011").2.1 (by decide) (by decide)⟩

/-- Rows whose key is not among a list's keys are filtered away. -/
lemma filter_key_eq_nil (l : List ObjectState) (k : String)
    (h : k ∉ l.map ObjectState.id) :
    l.filter (fun r => decide (r.id = k)) = [] := by
  induction l with
  | nil => rfl
  | cons r rest ih =>
    simp only [List.map_cons, List.mem_cons, not_or] at h
    obtain ⟨h1, h2⟩ := h
    have hr : ¬(r.id = k) := fun he => h1 he.symm
    simp only [List.filter_cons, decide_eq_true_eq, hr, ite_false]
    exact ih h2

/-- After an upsert, filtering by the upserted key yields exactly the new
row (given pairwise distinct keys). -/
lemma upsert_filter_self (l : List ObjectState) (row : ObjectState)
    (h : (l.map ObjectState.id).Nodup) :
    (upsertState l row).filter (fun r => decide (r.id = row.id)) = [row] := by
  induction l with
  | nil => simp [upsertState]
  | cons r rest ih =>
    simp only [List.map_cons, List.nodup_cons] at h
    obtain ⟨hr, hrest⟩ := h
    by_cases he : r.id = row.id
    · rw [upsertState, if_pos he]
      have hnil : rest.filter (fun x => decide (x.id = row.id)) = [] := by
        apply filter_key_eq_nil
        rw [← he]
        exact hr
      simp [List.filter_cons, hnil]
    · rw [upsertState, if_neg he]
      simp only [List.filter_cons, decide_eq_true_eq, he, ite_false]
      exact ih hrest

/-- Keys after an upsert come from the original keys or the new row. -/
lemma mem_upsert_keys (l : List ObjectState) (row : ObjectState) (x : String)
    (h : x ∈ (upsertState l row).map ObjectState.id) :
    x ∈ l.map ObjectState.id ∨ x = row.id := by
  induction l with
  | nil =>
    simp only [upsertState, List.map_cons, List.map_nil, List.mem_singleton] at h
    exact Or.inr h
  | cons r rest ih =>
    by_cases he : r.id = row.id
    · rw [upsertState, if_pos he] at h
      simp only [List.map_cons, List.mem_cons] at h ⊢
      rcases h with h | h
      · exact Or.inr h
      · exact Or.inl (Or.inr h)
    · rw [upsertState, if_neg he] at h
      simp only [List.map_cons, List.mem_cons] at h ⊢
      rcases h with h | h
      · exact Or.inl (Or.inl h)
      · rcases ih h with h2 | h2
        · exact Or.inl (Or.inr h2)
        · exact Or.inr h2

/-- Upserting preserves distinctness of the states keys. -/
lemma upsert_nodup (l : List ObjectState) (row : ObjectState)
    (h : (l.map ObjectState.id).Nodup) :
    ((upsertState l row).map ObjectState.id).Nodup := by
  induction l with
  | nil => simp [upsertState]
  | cons r rest ih =>
    simp only [List.map_cons, List.nodup_cons] at h
    obtain ⟨hr, hrest⟩ := h
    by_cases he : r.id = row.id
    · rw [upsertState, if_pos he]
      simp only [List.map_cons, List.nodup_cons]
      exact ⟨by rw [← he]; exact hr, hrest⟩
    · rw [upsertState, if_neg he]
      simp only [List.map_cons, List.nodup_cons]
      refine ⟨fun hmem => ?_, ih hrest⟩
      rcases mem_upsert_keys rest row r.id hmem with h2 | h2
      · exact hr h2
      · exact he h2

/-- C5. Appending a valid operation upserts exactly one states row keyed
by `type/id`, with event `insert` for insert/update operations and
`delete` for delete operations and with the operation's data; after
`insert(k); update(k); update(k); delete(k)` the single row for `k` has
event `delete` and the delete operation's data (hence its timestamp). -/
theorem claim_C5 (st : Store) (op : Operation) (now : Int)
    (hnd : (st.states.map ObjectState.id).Nodup)
    (hev : op.event = "insert" ∨ op.event = "update" ∨ op.event = "delete") :
    ((Append st op now).states.filter (fun r => decide (r.id = GetId op.data)) =
      [ObjectState.mk (GetId op.data)
        (if op.event = "delete" then "delete" else "insert") now op.data]) ∧
    ((Append st op now).states.map ObjectState.id).Nodup ∧
    (∀ (d1 d2 d3 d4 : OperationData) (o1 o2 o3 o4 : ObjectId) (n1 n2 n3 n4 : Int)
        (st0 : Store), (st0.states.map ObjectState.id).Nodup →
      GetId d1 = GetId d4 → GetId d2 = GetId d4 → GetId d3 = GetId d4 →
      (Append (Append (Append (Append st0 (Operation.mk o1 "insert" d1) n1)
          (Operation.mk o2 "update" d2) n2)
          (Operation.mk o3 "update" d3) n3)
          (Operation.mk o4 "delete" d4) n4).states.filter
            (fun r => decide (r.id = GetId d4)) =
        [ObjectState.mk (GetId d4) "delete" n4 d4]) := by
  have hse : stateEvent op.event = (if op.event = "delete" then "delete" else "insert") := by
    rcases hev with h | h | h <;> rw [h] <;> rfl
  refine ⟨?_, upsert_nodup _ _ hnd, ?_⟩
  · have h0 := upsert_filter_self st.states
      (ObjectState.mk (GetId op.data) (stateEvent op.event) now op.data) hnd
    simpa [Append, hse] using h0
  · intro d1 d2 d3 d4 o1 o2 o3 o4 n1 n2 n3 n4 st0 hnd0 h1 h2 h3
    have hn1 := upsert_nodup _
      (ObjectState.mk (GetId d1) (stateEvent "insert") n1 d1) hnd0
    have hn2 := upsert_nodup _
      (ObjectState.mk (GetId d2) (stateEvent "update") n2 d2) hn1
    have hn3 := upsert_nodup _
      (ObjectState.mk (GetId d3) (stateEvent "update") n3 d3) hn2
    have hfin := upsert_filter_self _
      (ObjectState.mk (GetId d4) (stateEvent "delete") n4 d4) hn3
    simpa [Append] using hfin

/-- Witness for C5 on a concrete one-key store and operation sequence. -/
theorem claim_C5_witness :
    ((Append (Store.mk [] []) (Operation.mk (ObjectId.mk 7) "update"
        (OperationData.mk 5 [] "video" "x1")) 6).states.filter
      (fun r => decide (r.id = GetId (OperationData.mk 5 [] "video" "x1"))) =
      [ObjectState.mk (GetId (OperationData.mk 5 [] "video" "x1")) "insert" 6
        (OperationData.mk 5 [] "video" "x1")]) ∧
    ((Append (Append (Append (Append (Store.mk [] [])
        (Operation.mk (ObjectId.mk 1) "insert" (OperationData.mk 1 [] "video" "x1")) 1)
        (Operation.mk (ObjectId.mk 2) "update" (OperationData.mk 2 [] "video" "x1")) 2)
        (Operation.mk (ObjectId.mk 3) "update" (OperationData.mk 3 [] "video" "x1")) 3)
        (Operation.mk (ObjectId.mk 4) "delete" (OperationData.mk 4 [] "video" "x1")) 4).states.filter
          (fun r => decide (r.id = GetId (OperationData.mk 4 [] "video" "x1"))) =
      [ObjectState.mk (GetId (OperationData.mk 4 [] "video" "x1")) "delete" 4
        (OperationData.mk 4 [] "video" "x1")]) := by
  constructor
  · have h := claim_C5 (Store.mk [] [])
      (Operation.mk (ObjectId.mk 7) "update" (OperationData.mk 5 [] "video" "x1")) 6
      (by decide) (Or.inr (Or.inl rfl))
    simpa using h.1
  · exact (claim_C5 (Store.mk [] [])
      (Operation.mk (ObjectId.mk 7) "update" (OperationData.mk 5 [] "video" "x1")) 6
      (by decide) (Or.inr (Or.inl rfl))).2.2
      (OperationData.mk 1 [] "video" "x1") (OperationData.mk 2 [] "video" "x1")
      (OperationData.mk 3 [] "video" "x1") (OperationData.mk 4 [] "video" "x1")
      (ObjectId.mk 1) (ObjectId.mk 2) (ObjectId.mk 3) (ObjectId.mk 4)
      1 2 3 4 (Store.mk [] []) (by decide) rfl rfl rfl

lemma lookup_none_of_not_mem_keys (l : List (String × OperationData)) (k : String)
    (h : k ∉ l.map Prod.fst) :
    lookupData l k = none := by
  induction l with
  | nil => rfl
  | cons kv rest ih =>
    simp only [List.map_cons, List.mem_cons, not_or] at h
    obtain ⟨h1, h2⟩ := h
    rw [lookupData, if_neg (fun he => h1 he.symm)]
    exact ih h2

lemma lookup_eraseKey_ne (l : List (String × OperationData)) (j k : String)
    (h : j ≠ k) :
    lookupData (eraseKey l j) k = lookupData l k := by
  induction l with
  | nil => rfl
  | cons kv rest ih =>
    by_cases hj : kv.1 = j
    · rw [eraseKey, if_pos hj, lookupData, if_neg (by rw [hj]; exact h)]
    · rw [eraseKey, if_neg hj]
      by_cases hk : kv.1 = k
      · rw [lookupData, if_pos hk, lookupData, if_pos hk]
      · rw [lookupData, if_neg hk, lookupData, if_neg hk, ih]

lemma lookup_setKey_ne (l : List (String × OperationData)) (j k : String)
    (v : OperationData) (h : j ≠ k) :
    lookupData (setKey l j v) k = lookupData l k := by
  induction l with
  | nil => simp [setKey, lookupData, h]
  | cons kv rest ih =>
    by_cases hj : kv.1 = j
    · rw [setKey, if_pos hj]
      simp only [lookupData, h, ite_false]
      rw [if_neg (by rw [hj]; exact h)]
    · rw [setKey, if_neg hj]
      by_cases hk : kv.1 = k
      · rw [lookupData, if_pos hk, lookupData, if_pos hk]
      · rw [lookupData, if_neg hk, lookupData, if_neg hk, ih]

lemma lookup_eraseKey_self (l : List (String × OperationData)) (k : String)
    (h : (l.map Prod.fst).Nodup) :
    lookupData (eraseKey l k) k = none := by
  induction l with
  | nil => rfl
  | cons kv rest ih =>
    simp only [List.map_cons, List.nodup_cons] at h
    obtain ⟨h1, h2⟩ := h
    by_cases hk : kv.1 = k
    · rw [eraseKey, if_pos hk]
      apply lookup_none_of_not_mem_keys
      rw [← hk]
      exact h1
    · rw [eraseKey, if_neg hk, lookupData, if_neg hk]
      exact ih h2

lemma eraseKey_keys_sublist (l : List (String × OperationData)) (k : String) :
    ((eraseKey l k).map Prod.fst).Sublist (l.map Prod.fst) := by
  induction l with
  | nil => simp [eraseKey]
  | cons kv rest ih =>
    by_cases hk : kv.1 = k
    · rw [eraseKey, if_pos hk]
      exact (List.sublist_cons_self _ _)
    · rw [eraseKey, if_neg hk]
      simpa using ih.cons₂ kv.1

/-- A `Diff` scan step only touches the entries keyed by the scanned
row's id: lookups at any other key are unchanged in all three maps. -/
lemma diffStep_preserves_other (dt : Int) (m : DiffMaps) (obs : ObjectState)
    (k : String) (h : obs.id ≠ k) :
    lookupData (diffStep dt m obs).createMap k = lookupData m.createMap k ∧
    lookupData (diffStep dt m obs).updateMap k = lookupData m.updateMap k ∧
    lookupData (diffStep dt m obs).deleteMap k = lookupData m.deleteMap k := by
  have hcr : ∀ l, lookupData (eraseKey l obs.id) k = lookupData l k :=
    fun l => lookup_eraseKey_ne l obs.id k h
  have hst : ∀ l v, lookupData (setKey l obs.id v) k = lookupData l k :=
    fun l v => lookup_setKey_ne l obs.id k v h
  rw [diffStep]
  by_cases hdel : obs.event = "deleted"
  · rw [if_pos hdel]
    cases hc : lookupData m.createMap obs.id with
    | none => exact ⟨rfl, rfl, rfl⟩
    | some obd =>
      simp only []
      by_cases hlt : obd.ts < obs.data.ts
      · rw [if_pos hlt]
        exact ⟨hcr _, rfl, rfl⟩
      · rw [if_neg hlt]
        exact ⟨rfl, rfl, rfl⟩
  · rw [if_neg hdel]
    cases hc : lookupData m.createMap obs.id with
    | none =>
      simp only []
      by_cases hlt : obs.data.ts < dt
      · rw [if_pos hlt]
        exact ⟨hcr _, rfl, hst _ _⟩
      · rw [if_neg hlt]
        exact ⟨rfl, rfl, rfl⟩
    | some obd =>
      simp only []
      by_cases hlt : obs.data.ts < obd.ts
      · rw [if_pos hlt]
        exact ⟨hcr _, hst _ _, rfl⟩
      · rw [if_neg hlt]
        exact ⟨hcr _, rfl, rfl⟩

lemma diffStep_createMap_nodup (dt : Int) (m : DiffMaps) (obs : ObjectState)
    (h : (m.createMap.map Prod.fst).Nodup) :
    ((diffStep dt m obs).createMap.map Prod.fst).Nodup := by
  rw [diffStep]
  by_cases hdel : obs.event = "deleted"
  · rw [if_pos hdel]
    cases lookupData m.createMap obs.id with
    | none => exact h
    | some obd =>
      simp only []
      by_cases hlt : obd.ts < obs.data.ts
      · rw [if_pos hlt]
        exact (eraseKey_keys_sublist _ _).nodup h
      · rw [if_neg hlt]
        exact h
  · rw [if_neg hdel]
    cases lookupData m.createMap obs.id with
    | none =>
      simp only []
      by_cases hlt : obs.data.ts < dt
      · rw [if_pos hlt]
        exact (eraseKey_keys_sublist _ _).nodup h
      · rw [if_neg hlt]
        exact h
    | some obd =>
      simp only []
      by_cases hlt : obs.data.ts < obd.ts
      · rw [if_pos hlt]
        exact (eraseKey_keys_sublist _ _).nodup h
      · rw [if_neg hlt]
        exact (eraseKey_keys_sublist _ _).nodup h

lemma diffFold_createMap_nodup (dt : Int) (rows : List ObjectState) :
    ∀ m : DiffMaps, (m.createMap.map Prod.fst).Nodup →
      ((rows.foldl (diffStep dt) m).createMap.map Prod.fst).Nodup := by
  induction rows with
  | nil => exact fun m h => h
  | cons r rest ih =>
    intro m h
    exact ih _ (diffStep_createMap_nodup dt m r h)

lemma diffFold_preserves_other (dt : Int) (rows : List ObjectState) (k : String) :
    ∀ m : DiffMaps, (∀ r ∈ rows, r.id ≠ k) →
      lookupData (rows.foldl (diffStep dt) m).createMap k = lookupData m.createMap k ∧
      lookupData (rows.foldl (diffStep dt) m).updateMap k = lookupData m.updateMap k ∧
      lookupData (rows.foldl (diffStep dt) m).deleteMap k = lookupData m.deleteMap k := by
  induction rows with
  | nil => exact fun m _ => ⟨rfl, rfl, rfl⟩
  | cons r rest ih =>
    intro m hall
    have hstep := diffStep_preserves_other dt m r k (hall r (List.mem_cons_self r rest))
    have hrest := ih (diffStep dt m r) (fun x hx => hall x (List.mem_cons_of_mem r hx))
    exact ⟨hrest.1.trans hstep.1, hrest.2.1.trans hstep.2.1, hrest.2.2.trans hstep.2.2⟩

/-- The scan step on a states row with event `"delete"` (which fails the
source's `"deleted"` comparison and takes the exists-branch) whose key is
in the create map with a staler snapshot timestamp: the key is removed
from the create map and added to neither other map. -/
lemma diffStep_delete_stale (dt : Int) (m : DiffMaps) (r : ObjectState)
    (obd : OperationData)
    (hnd : (m.createMap.map Prod.fst).Nodup)
    (hev : r.event = "delete")
    (hc : lookupData m.createMap r.id = some obd)
    (hts : obd.ts < r.data.ts)
    (hu : lookupData m.updateMap r.id = none)
    (hd : lookupData m.deleteMap r.id = none) :
    lookupData (diffStep dt m r).createMap r.id = none ∧
    lookupData (diffStep dt m r).updateMap r.id = none ∧
    lookupData (diffStep dt m r).deleteMap r.id = none := by
  have hne : ¬(r.event = "deleted") := by rw [hev]; decide
  simp only [diffStep, if_neg hne, hc]
  rw [if_neg (not_lt.mpr hts.le)]
  exact ⟨lookup_eraseKey_self _ _ hnd, hu, hd⟩

/-- C6. In `Diff`, a scanned states row with event `delete` whose key is
present in the create map with a snapshot timestamp earlier than the
row's data timestamp ends with that key removed from the create map and
absent from the update and delete maps. -/
theorem claim_C6 (states : List ObjectState) (cm um dm : List (String × OperationData))
    (r : ObjectState) (obd : OperationData)
    (hndS : (states.map ObjectState.id).Nodup)
    (hndC : (cm.map Prod.fst).Nodup)
    (hr : r ∈ states) (hev : r.event = "delete")
    (hc : lookupData cm r.id = some obd)
    (hts : obd.ts < r.data.ts)
    (hu : lookupData um r.id = none) (hd : lookupData dm r.id = none) :
    lookupData (Diff states cm um dm).createMap r.id = none ∧
    lookupData (Diff states cm um dm).updateMap r.id = none ∧
    lookupData (Diff states cm um dm).deleteMap r.id = none := by
  obtain ⟨l1, l2, rfl⟩ := List.append_of_mem hr
  have hnd12 := hndS
  rw [List.map_append, List.map_cons, List.nodup_append] at hnd12
  obtain ⟨hnd1, hnd2, hdisj⟩ := hnd12
  have hk1 : ∀ x ∈ l1, x.id ≠ r.id := by
    intro x hx he
    exact hdisj (List.mem_map_of_mem ObjectState.id hx)
      (by rw [he]; exact List.mem_cons_self _ _)
  have hk2 : ∀ x ∈ l2, x.id ≠ r.id := by
    intro x hx he
    rw [List.nodup_cons] at hnd2
    exact hnd2.1 (he ▸ List.mem_map_of_mem ObjectState.id hx)
  rw [Diff, List.foldl_append, List.foldl_cons]
  set dt := dumpTimeOf cm with hdt
  set m1 := l1.foldl (diffStep dt) (DiffMaps.mk cm um dm) with hm1
  have hpre := diffFold_preserves_other dt l1 r.id (DiffMaps.mk cm um dm) hk1
  have hnd1c : (m1.createMap.map Prod.fst).Nodup :=
    diffFold_createMap_nodup dt l1 (DiffMaps.mk cm um dm) hndC
  have hstep := diffStep_delete_stale dt m1 r obd hnd1c hev
    (by rw [hpre.1]; exact hc) hts
    (by rw [hpre.2.1]; exact hu) (by rw [hpre.2.2]; exact hd)
  have hpost := diffFold_preserves_other dt l2 r.id (diffStep dt m1 r) hk2
  exact ⟨hpost.1.trans hstep.1, hpost.2.1.trans hstep.2.1, hpost.2.2.trans hstep.2.2⟩

/-- Witness for C6 on a one-row scan and one-entry snapshot. -/
theorem claim_C6_witness :
    lookupData (Diff [ObjectState.mk "video/x1" "delete" 9
        (OperationData.mk 8 [] "video" "x1")]
      [("video/x1", OperationData.mk 3 [] "video" "x1")] [] []).createMap "video/x1" = none ∧
    lookupData (Diff [ObjectState.mk "video/x1" "delete" 9
        (OperationData.mk 8 [] "video" "x1")]
      [("video/x1", OperationData.mk 3 [] "video" "x1")] [] []).updateMap "video/x1" = none ∧
    lookupData (Diff [ObjectState.mk "video/x1" "delete" 9
        (OperationData.mk 8 [] "video" "x1")]
      [("video/x1", OperationData.mk 3 [] "video" "x1")] [] []).deleteMap "video/x1" = none := by
  have h := claim_C6 [ObjectState.mk "video/x1" "delete" 9 (OperationData.mk 8 [] "video" "x1")]
    [("video/x1", OperationData.mk 3 [] "video" "x1")] [] []
    (ObjectState.mk "video/x1" "delete" 9 (OperationData.mk 8 [] "video" "x1"))
    (OperationData.mk 3 [] "video" "x1")
    (by decide) (by decide) (List.mem_singleton.mpr rfl) rfl (by decide) (by decide)
    rfl rfl
  exact h

lemma mem_insertByTs (r a : ObjectState) (l : List ObjectState) :
    a ∈ insertByTs r l ↔ a = r ∨ a ∈ l := by
  induction l with
  | nil => simp [insertByTs]
  | cons x xs ih =>
    rw [insertByTs]
    by_cases hle : r.ts ≤ x.ts
    · rw [if_pos hle]
      simp
    · rw [if_neg hle]
      simp only [List.mem_cons, ih]
      tauto

lemma mem_sortStates (a : ObjectState) (l : List ObjectState) :
    a ∈ sortStates l ↔ a ∈ l := by
  induction l with
  | nil => simp [sortStates]
  | cons x xs ih =>
    rw [sortStates, mem_insertByTs]
    simp [ih]

lemma replTsMatch_le (gte : Option Int) (lteV ts : Int)
    (h : replTsMatch gte (some lteV) ts = true) : ts ≤ lteV := by
  cases gte with
  | none => simpa [replTsMatch] using h
  | some g =>
    rw [replTsMatch, Bool.and_eq_true, decide_eq_true_eq, decide_eq_true_eq] at h
    exact h.2

lemma mem_replPage (ps : Nat) (states : List ObjectState) (f : Filter)
    (gte lte : Option Int) (fbMode : Bool) (r : ObjectState)
    (h : r ∈ replPage ps states f gte lte fbMode) :
    replQueryMatch f gte lte fbMode r = true ∧ r ∈ states := by
  rw [replPage] at h
  have h2 := List.mem_of_mem_take h
  rw [List.mem_filter] at h2
  exact ⟨h2.2, (mem_sortStates _ _).mp h2.1⟩

lemma replQueryMatch_ts (f : Filter) (gte lte : Option Int) (fbMode : Bool)
    (r : ObjectState) (h : replQueryMatch f gte lte fbMode r = true) :
    replTsMatch gte lte r.ts = true := by
  rw [replQueryMatch, Bool.and_eq_true, Bool.and_eq_true] at h
  exact h.1.2

/-- Definitional unfolding of `replLoop` at a successor fuel value. -/
lemma replLoop_succ (fuel2 ps : Nat) (states : List ObjectState) (f : Filter)
    (gte lte : Option Int) (fbMode : Bool) (lastEv : Option ObjectState) :
    replLoop (fuel2 + 1) ps states f gte lte fbMode lastEv =
      match (replPage ps states f gte lte fbMode).getLast? with
      | some r =>
        if (replPage ps states f gte lte fbMode).length = ps then
          replPage ps states f gte lte fbMode ++ replLoop fuel2 ps states f
            (some (Int.tdiv r.ts 1000000 * 1000000)) lte fbMode (some r)
        else replPage ps states f gte lte fbMode
      | none =>
        match lastEv with
        | some r =>
          if (replPage ps states f gte lte fbMode).length = ps then
            replPage ps states f gte lte fbMode ++ replLoop fuel2 ps states f
              (some (Int.tdiv r.ts 1000000 * 1000000)) lte fbMode (some r)
          else replPage ps states f gte lte fbMode
        | none => replPage ps states f gte lte fbMode := rfl

/-- Every row the replication page loop emits satisfies the frozen upper
bound of the window. -/
lemma replLoop_ts_le (fuel : Nat) :
    ∀ (ps : Nat) (states : List ObjectState) (f : Filter) (gte : Option Int)
      (lteV : Int) (fbMode : Bool) (lastEv : Option ObjectState) (r : ObjectState),
      r ∈ replLoop fuel ps states f gte (some lteV) fbMode lastEv → r.ts ≤ lteV := by
  induction fuel with
  | zero =>
    intro ps states f gte lteV fbMode lastEv r hr
    exact absurd hr (List.not_mem_nil r)
  | succ n ih =>
    intro ps states f gte lteV fbMode lastEv r hr
    have hpage : ∀ g, r ∈ replPage ps states f g (some lteV) fbMode → r.ts ≤ lteV :=
      fun g hmem =>
        replTsMatch_le g lteV r.ts (replQueryMatch_ts _ _ _ _ _ (mem_replPage _ _ _ _ _ _ _ hmem).1)
    rw [replLoop_succ] at hr
    cases hlast : (replPage ps states f gte (some lteV) fbMode).getLast? with
    | some p =>
      rw [hlast] at hr
      simp only [] at hr
      by_cases hlen : (replPage ps states f gte (some lteV) fbMode).length = ps
      · rw [if_pos hlen, List.mem_append] at hr
        rcases hr with hr | hr
        · exact hpage _ hr
        · exact ih _ _ _ _ _ _ _ _ hr
      · rw [if_neg hlen] at hr
        exact hpage _ hr
    | none =>
      rw [hlast] at hr
      simp only [] at hr
      cases lastEv with
      | some p =>
        simp only [] at hr
        by_cases hlen : (replPage ps states f gte (some lteV) fbMode).length = ps
        · rw [if_pos hlen, List.mem_append] at hr
          rcases hr with hr | hr
          · exact hpage _ hr
          · exact ih _ _ _ _ _ _ _ _ hr
        · rw [if_neg hlen] at hr
          exact hpage _ hr
      | none =>
        simp only [] at hr
        exact hpage _ hr

/-- When all matching rows fit strictly within one page, the loop emits
exactly the sorted filtered rows and stops. -/
lemma replLoop_single_page (fuel ps : Nat) (states : List ObjectState) (f : Filter)
    (gte lte : Option Int) (fbMode : Bool) (hfuel : 0 < fuel)
    (hlen : (List.filter (replQueryMatch f gte lte fbMode) (sortStates states)).length < ps) :
    replLoop fuel ps states f gte lte fbMode none =
      List.filter (replQueryMatch f gte lte fbMode) (sortStates states) := by
  cases fuel with
  | zero => exact absurd hfuel (by decide)
  | succ n =>
    have hpage : replPage ps states f gte lte fbMode =
        List.filter (replQueryMatch f gte lte fbMode) (sortStates states) := by
      rw [replPage]
      exact List.take_of_length_le hlen.le
    have hplen : ¬(replPage ps states f gte lte fbMode).length = ps := by
      rw [hpage]
      omega
    rw [replLoop]
    cases hlast : (replPage ps states f gte lte fbMode).getLast? with
    | some p =>
      simp only []
      rw [if_neg hplen, hpage]
    | none =>
      simp only []
      exact hpage

lemma mem_liveEmit (st : Store) (a : ObjectId) (f : Filter) (op : Operation) :
    op ∈ liveEmit st (some a) f ↔
      op ∈ st.ops ∧ f.matchData op.data = true ∧ a.val < op.id.val := by
  rw [liveEmit, List.mem_filter, Bool.and_eq_true]
  simp only [decide_eq_true_eq]

lemma tailResetEvents_synth (lastId : Option LastID) (x : TailOutput)
    (hx : x ∈ tailResetEvents lastId) : x = TailOutput.synth "1" "reset" := by
  cases lastId with
  | none => simp [tailResetEvents] at hx
  | some lid =>
    cases lid with
    | op o => simp [tailResetEvents] at hx
    | repl ms fb =>
      rw [tailResetEvents] at hx
      by_cases h0 : ms = 0
      · rw [if_pos h0] at hx
        simpa using hx
      · rw [if_neg h0] at hx
        simp at hx

/-- C2. With the replication fallback id captured as the last stored
operation, (i) no row emitted during the replication phase of `Tail` has
a timestamp past the fallback id's time, (ii) every operation emitted by
the following live phase is a stored operation with id strictly greater
than the fallback id, and (iii) assuming every later-stamped state row
has a matching stored operation past the fallback id (as appends produce),
each such row is delivered by the live phase. -/
theorem claim_C2 (fuel ps : Nat) (st : Store) (f : Filter) (ms : Int) (fbMode : Bool)
    (fbOid : ObjectId) (hfb : st.lastID = some fbOid)
    (hlink : ∀ row ∈ st.states, fbOid.time < row.ts →
      ∃ op, op ∈ st.ops ∧ fbOid.val < op.id.val ∧ f.matchData op.data = true ∧
        GetId op.data = row.id) :
    (∀ row, TailOutput.stat row ∈ tailEmit fuel ps st (some (LastID.repl ms fbMode)) f →
      row.ts ≤ fbOid.time) ∧
    (∀ op, TailOutput.oper op ∈ tailEmit fuel ps st (some (LastID.repl ms fbMode)) f →
      op ∈ st.ops ∧ fbOid.val < op.id.val) ∧
    (∀ row ∈ st.states, fbOid.time < row.ts →
      ∃ op, TailOutput.oper op ∈ tailEmit fuel ps st (some (LastID.repl ms fbMode)) f ∧
        GetId op.data = row.id) := by
  have hphase : tailReplPhase fuel ps st ms fbMode f =
      replLoop fuel ps st.states f (if 0 < ms then some (ms * 1000000) else none)
        (some fbOid.time) fbMode none := by
    rw [tailReplPhase, hfb]
    rfl
  refine ⟨?_, ?_, ?_⟩
  · intro row hrow
    rw [tailEmit, List.mem_append] at hrow
    rcases hrow with h | h
    · exact absurd (tailResetEvents_synth _ _ h) (by simp)
    · simp only [hfb, List.append_assoc, List.mem_append, List.mem_map,
        List.mem_singleton] at h
      rcases h with ⟨r2, hr2, he⟩ | he | ⟨o2, _, he⟩
      · cases he
        rw [hphase] at hr2
        exact replLoop_ts_le fuel _ _ _ _ _ _ _ _ hr2
      · cases he
      · cases he
  · intro op hop
    rw [tailEmit, List.mem_append] at hop
    rcases hop with h | h
    · exact absurd (tailResetEvents_synth _ _ h) (by simp)
    · simp only [hfb, List.append_assoc, List.mem_append, List.mem_map,
        List.mem_singleton] at h
      rcases h with ⟨r2, _, he⟩ | he | ⟨o2, ho2, he⟩
      · cases he
      · cases he
      · cases he
        have := (mem_liveEmit st fbOid f op).mp ho2
        exact ⟨this.1, this.2.2⟩
  · intro row hrow hts
    obtain ⟨op, hmem, hgt, hmatch, hkey⟩ := hlink row hrow hts
    refine ⟨op, ?_, hkey⟩
    rw [tailEmit, List.mem_append]
    right
    simp only [hfb, List.append_assoc, List.mem_append, List.mem_map]
    right
    right
    exact ⟨op, (mem_liveEmit st fbOid f op).mpr ⟨hmem, hmatch, hgt⟩, rfl⟩

/-- Witness for C2 on a one-op store whose single state row is emitted by
the replication phase and is inside the frozen window (the linking
hypothesis holds vacuously). -/
theorem claim_C2_witness :
    (ObjectState.mk "video/x1" "insert" 500000000
      (OperationData.mk 2 [] "video" "x1")).ts ≤
      (ObjectId.mk 18446744073709551616).time := by
  have h := claim_C2 1 1000
    (Store.mk [Operation.mk (ObjectId.mk 18446744073709551616) "insert"
      (OperationData.mk 2 [] "video" "x1")]
      [ObjectState.mk "video/x1" "insert" 500000000
        (OperationData.mk 2 [] "video" "x1")])
    (Filter.mk [] []) 0 false (ObjectId.mk 18446744073709551616) (by decide)
    (by
      intro row hrow hts
      simp only [List.mem_singleton] at hrow
      subst hrow
      exact absurd hts (by decide))
  exact h.1 (ObjectState.mk "video/x1" "insert" 500000000
    (OperationData.mk 2 [] "video" "x1")) (by decide)

/-- C3. The replication query constrains `event = insert` exactly when not
in fallback mode: in fallback mode the query is only the filter plus the
time window, so a `delete` row inside the window is matched and emitted
by the replication scan (shown for a run whose matches fit in one page),
while outside fallback mode any `delete` row fails the query. -/
theorem claim_C3 (f : Filter) (gte lte : Option Int) (row : ObjectState) :
    (replQueryMatch f gte lte false row =
      (f.matchData row.data && replTsMatch gte lte row.ts &&
        decide (row.event = "insert"))) ∧
    (replQueryMatch f gte lte true row =
      (f.matchData row.data && replTsMatch gte lte row.ts)) ∧
    (replQueryMatch f gte lte false row = true → row.event = "insert") ∧
    (row.event = "delete" → replQueryMatch f gte lte false row = false) ∧
    (∀ fuel ps states, row ∈ states → row.event = "delete" →
      f.matchData row.data = true → replTsMatch gte lte row.ts = true →
      (List.filter (replQueryMatch f gte lte true) (sortStates states)).length < ps →
      0 < fuel →
      row ∈ replLoop fuel ps states f gte lte true none) := by
  refine ⟨by simp [replQueryMatch], by simp [replQueryMatch], ?_, ?_, ?_⟩
  · intro h
    rw [replQueryMatch, Bool.and_eq_true] at h
    have h2 := h.2
    rw [Bool.false_or, decide_eq_true_eq] at h2
    exact h2
  · intro hev
    rw [replQueryMatch]
    have : decide (row.event = "insert") = false := by
      rw [hev]
      decide
    simp [this]
  · intro fuel ps states hmem hev hmatch hts hlen hfuel
    rw [replLoop_single_page fuel ps states f gte lte true hfuel hlen]
    rw [List.mem_filter]
    refine ⟨(mem_sortStates _ _).mpr hmem, ?_⟩
    simp [replQueryMatch, hmatch, hts]

/-- Witness for C3: a concrete `delete` row inside the window is matched
in fallback mode, rejected outside it, and emitted by the fallback scan. -/
theorem claim_C3_witness :
    (replQueryMatch (Filter.mk [] []) none (some 9) false
      (ObjectState.mk "video/x1" "delete" 5 (OperationData.mk 4 [] "video" "x1")) = false) ∧
    (ObjectState.mk "video/x1" "delete" 5 (OperationData.mk 4 [] "video" "x1")) ∈
      replLoop 1 1000 [ObjectState.mk "video/x1" "delete" 5
        (OperationData.mk 4 [] "video" "x1")] (Filter.mk [] []) none (some 9) true none := by
  constructor
  · exact (claim_C3 (Filter.mk [] []) none (some 9)
      (ObjectState.mk "video/x1" "delete" 5 (OperationData.mk 4 [] "video" "x1"))).2.2.2.1 rfl
  · exact (claim_C3 (Filter.mk [] []) none (some 9)
      (ObjectState.mk "video/x1" "delete" 5 (OperationData.mk 4 [] "video" "x1"))).2.2.2.2
      1 1000 _ (List.mem_singleton.mpr rfl) rfl (by decide) (by decide) (by decide) (by decide)

/-- C4. `Tail` emits the synthetic event with id `"1"` and name `reset`
first exactly when the given last id is a replication id with value 0;
for any other last id (a positive or negative replication id, an
operation id, or none) no reset event appears anywhere in the output. -/
theorem claim_C4 (fuel ps : Nat) (st : Store) (lastId : Option LastID) (f : Filter) :
    ((tailEmit fuel ps st lastId f).head? = some (TailOutput.synth "1" "reset") ↔
      ∃ fb, lastId = some (LastID.repl 0 fb)) ∧
    ((¬∃ fb, lastId = some (LastID.repl 0 fb)) →
      TailOutput.synth "1" "reset" ∉ tailEmit fuel ps st lastId f) := by
  cases lastId with
  | none =>
    constructor
    · simp [tailEmit, tailResetEvents]
    · intro h
      simp [tailEmit, tailResetEvents]
  | some lid =>
    cases lid with
    | op oid =>
      constructor
      · rw [tailEmit]
        simp only [tailResetEvents, List.nil_append]
        constructor
        · intro h
          exfalso
          cases hl : (liveEmit st (some oid) f).map TailOutput.oper with
          | nil => rw [hl] at h; simp at h
          | cons y ys =>
            rw [hl] at h
            simp only [List.head?_cons, Option.some.injEq] at h
            have : ∃ op, TailOutput.oper op = y := by
              have := List.mem_map.mp (hl ▸ List.mem_cons_self y ys)
              exact ⟨this.choose, this.choose_spec.2⟩
            obtain ⟨op, hop⟩ := this
            rw [← hop] at h
            cases h
        · rintro ⟨fb, h⟩
          cases h
      · intro h hmem
        rw [tailEmit] at hmem
        simp only [tailResetEvents, List.nil_append, List.mem_map] at hmem
        obtain ⟨op, -, hop⟩ := hmem
        cases hop
    | repl ms fb =>
      by_cases h0 : ms = 0
      · subst h0
        constructor
        · constructor
          · intro h
            exact ⟨fb, rfl⟩
          · intro h
            rw [tailEmit]
            simp [tailResetEvents]
        · intro h
          exact absurd ⟨fb, rfl⟩ h
      · constructor
        · constructor
          · intro h
            exfalso
            rw [tailEmit] at h
            simp only [tailResetEvents, if_neg h0, List.nil_append] at h
            cases hrows : (tailReplPhase fuel ps st ms fb f).map TailOutput.stat with
            | nil =>
              rw [hrows] at h
              simp only [List.nil_append, List.cons_append, List.head?_cons,
                Option.some.injEq] at h
              injection h with h1 h2
              exact absurd h2 (by decide)
            | cons y ys =>
              rw [hrows] at h
              simp only [List.append_assoc, List.cons_append, List.head?_cons,
                Option.some.injEq] at h
              have : ∃ r, TailOutput.stat r = y := by
                have := List.mem_map.mp (hrows ▸ List.mem_cons_self y ys)
                exact ⟨this.choose, this.choose_spec.2⟩
              obtain ⟨r, hr⟩ := this
              rw [← hr] at h
              cases h
          · rintro ⟨fb2, h⟩
            rw [Option.some.injEq] at h
            cases h
            exact absurd rfl h0
        · intro h hmem
          rw [tailEmit] at hmem
          simp only [tailResetEvents, if_neg h0, List.nil_append, List.append_assoc,
            List.mem_append, List.mem_map, List.mem_singleton] at hmem
          rcases hmem with ⟨r, -, hr⟩ | hr | hrest
          · cases hr
          · injection hr with h1 h2
            exact absurd h2 (by decide)
          · cases hst : st.lastID with
            | none =>
              rw [hst] at hrest
              simp at hrest
            | some fbOid =>
              rw [hst] at hrest
              simp only [List.mem_map] at hrest
              obtain ⟨op, -, hop⟩ := hrest
              cases hop

/-- Witness for C4's membership conjunct at an operation last id. -/
theorem claim_C4_witness :
    TailOutput.synth "1" "reset" ∉
      tailEmit 1 1000 (Store.mk [] []) (some (LastID.op (ObjectId.mk 5))) (Filter.mk [] []) :=
  (claim_C4 1 1000 (Store.mk [] []) (some (LastID.op (ObjectId.mk 5))) (Filter.mk [] [])).2
    (by rintro ⟨fb, h⟩; cases h)

lemma NewLastID_empty : NewLastID "" = none := by decide

/-- C1 as stated is false on the no-echo part: for an aged-out operation
id the server does fall back to the replication id with `fallbackMode`
set, but the `Last-Event-ID` response header is still set to the request
value (the source sets it unconditionally, marked "Backward compat"). -/
theorem claim_C1_counterexample :
    HasID (Store.mk [] [])
      (LastID.op (ObjectId.mk 24912482966938930280208240657)) = false ∧
    (GetOps (Store.mk [] []) "507f1f77bcf86cd799439011").tailLastID =
      some (LastID.repl 1350508407000 true) ∧
    (GetOps (Store.mk [] []) "507f1f77bcf86cd799439011").echoLastEventID =
      some "507f1f77bcf86cd799439011" := by
  refine ⟨rfl, by decide, by decide⟩

/-- C1 (amended). For a GET whose `Last-Event-ID` header parses as an
operation id: when the id is no longer in the capped log, the tailer is
started in replication mode on the fallback replication id (the op id's
embedded time in milliseconds, `fallbackMode = true`); when it is still
present, the tailer resumes live at that id. In both cases the response
echoes the request's `Last-Event-ID` header. -/
theorem claim_C1 (st : Store) (s : String) (oid : ObjectId)
    (hparse : NewLastID s = some (LastID.op oid)) :
    (HasID st (LastID.op oid) = false →
      (GetOps st s).tailLastID = some (LastID.repl (Int.tdiv oid.time 1000000) true) ∧
      startMode (GetOps st s).tailLastID = TailMode.replicate ∧
      (GetOps st s).echoLastEventID = some s ∧
      (GetOps st s).status = 200) ∧
    (HasID st (LastID.op oid) = true →
      (GetOps st s).tailLastID = some (LastID.op oid) ∧
      startMode (GetOps st s).tailLastID = TailMode.live ∧
      (GetOps st s).echoLastEventID = some s ∧
      (GetOps st s).status = 200) := by
  have hne : ¬(s = "") := by
    intro h
    rw [h, NewLastID_empty] at hparse
    cases hparse
  rw [GetOps, if_neg hne]
  constructor
  · intro hfound
    simp only [hparse, hfound, Bool.false_eq_true, if_false]
    refine ⟨?_, ?_, ?_, ?_⟩ <;> (first | rfl | trivial)
  · intro hfound
    simp only [hparse, hfound, if_true]
    refine ⟨?_, ?_, ?_, ?_⟩ <;> (first | rfl | trivial)

/-- Witness for C1 on both arms: the id absent from an empty log (falls
back to replication) and the same id present in the log (resumes live). -/
theorem claim_C1_witness :
    ((GetOps (Store.mk [] []) "507f1f77bcf86cd799439011").tailLastID =
        some (LastID.repl (Int.tdiv (ObjectId.mk 24912482966938930280208240657).time 1000000) true) ∧
      startMode (GetOps (Store.mk [] []) "507f1f77bcf86cd799439011").tailLastID =
        TailMode.replicate ∧
      (GetOps (Store.mk [] []) "507f1f77bcf86cd799439011").echoLastEventID =
        some "507f1f77bcf86cd799439011" ∧
      (GetOps (Store.mk [] []) "507f1f77bcf86cd799439011").status = 200) ∧
    ((GetOps (Store.mk [Operation.mk (ObjectId.mk 24912482966938930280208240657)
        "insert" (OperationData.mk 0 [] "video" "x1")] [])
        "507f1f77bcf86cd799439011").tailLastID =
        some (LastID.op (ObjectId.mk 24912482966938930280208240657)) ∧
      startMode (GetOps (Store.mk [Operation.mk (ObjectId.mk 24912482966938930280208240657)
        "insert" (OperationData.mk 0 [] "video" "x1")] [])
        "507f1f77bcf86cd799439011").tailLastID = TailMode.live ∧
      (GetOps (Store.mk [Operation.mk (ObjectId.mk 24912482966938930280208240657)
        "insert" (OperationData.mk 0 [] "video" "x1")] [])
        "507f1f77bcf86cd799439011").echoLastEventID =
        some "507f1f77bcf86cd799439011" ∧
      (GetOps (Store.mk [Operation.mk (ObjectId.mk 24912482966938930280208240657)
        "insert" (OperationData.mk 0 [] "video" "x1")] [])
        "507f1f77bcf86cd799439011").status = 200) :=
  ⟨(claim_C1 (Store.mk [] []) "507f1f77bcf86cd799439011"
      (ObjectId.mk 24912482966938930280208240657) (by decide)).1 rfl,
   (claim_C1 (Store.mk [Operation.mk (ObjectId.mk 24912482966938930280208240657)
        "insert" (OperationData.mk 0 [] "video" "x1")] [])
      "507f1f77bcf86cd799439011"
      (ObjectId.mk 24912482966938930280208240657) (by decide)).2 (by decide)⟩

end Oplog
